import Mathlib

/-!
Verification development for the housing-price preprocessing pipeline
(source: src/preprocessing.py).  The pipeline is shallowly embedded:
tables are association lists from column names to columns of cells, a
cell is either missing, a rational number or a string, and the sklearn
transformers used by the source (SimpleImputer, OneHotEncoder,
OrdinalEncoder, ColumnTransformer, Pipeline, the custom DropColumns) are
modelled by executable Lean functions that follow their documented
semantics at the configuration the source uses.
-/

set_option maxRecDepth 10000

namespace Preproc

/-! ## Configuration (verbatim from the source module) -/

def TARGET_COL : String := "SalePrice"

def DROP_COLS : List String :=
  ["Order", "PID", "Mo Sold", "Yr Sold", "Sale Type", "Sale Condition",
   "Pool QC", "Alley", "Fence", "Misc Feature"]

def ORDINAL_COLS : List String :=
  ["Overall Qual", "Overall Cond", "Exter Qual", "Exter Cond", "Bsmt Qual",
   "Bsmt Cond", "Bsmt Exposure", "BsmtFin Type 1", "BsmtFin Type 2",
   "Heating QC", "Kitchen Qual", "Functional", "Fireplace Qu",
   "Garage Finish", "Garage Qual", "Garage Cond", "Land Slope",
   "Lot Shape", "Paved Drive"]

def NOMINAL_COLS : List String :=
  ["MS Zoning", "Street", "Land Contour", "Utilities", "Lot Config",
   "Neighborhood", "Condition 1", "Condition 2", "Bldg Type", "House Style",
   "Roof Style", "Roof Matl", "Exterior 1st", "Exterior 2nd",
   "Mas Vnr Type", "Foundation", "Heating", "Central Air", "Electrical",
   "Garage Type"]

def NUMERIC_COLS : List String :=
  ["Lot Frontage", "Lot Area", "Mas Vnr Area", "BsmtFin SF 1",
   "BsmtFin SF 2", "Bsmt Unf SF", "Total Bsmt SF", "1st Flr SF",
   "2nd Flr SF", "Low Qual Fin SF", "Gr Liv Area", "Bsmt Full Bath",
   "Bsmt Half Bath", "Full Bath", "Half Bath", "Bedroom AbvGr",
   "Kitchen AbvGr", "TotRms AbvGrd", "Fireplaces", "Garage Cars",
   "Garage Area", "Wood Deck SF", "Open Porch SF", "Enclosed Porch",
   "3Ssn Porch", "Screen Porch", "Pool Area", "Misc Val"]

def QUAL_SCALE : List String := ["None", "Po", "Fa", "TA", "Gd", "Ex"]

def ORDINAL_CATEGORIES : List (String × List String) :=
  [("Exter Qual", QUAL_SCALE),
   ("Exter Cond", QUAL_SCALE),
   ("Bsmt Qual", QUAL_SCALE),
   ("Bsmt Cond", QUAL_SCALE),
   ("Heating QC", QUAL_SCALE),
   ("Kitchen Qual", QUAL_SCALE),
   ("Fireplace Qu", QUAL_SCALE),
   ("Garage Qual", QUAL_SCALE),
   ("Garage Cond", QUAL_SCALE),
   ("Bsmt Exposure", ["None", "No", "Mn", "Av", "Gd"]),
   ("BsmtFin Type 1", ["None", "Unf", "LwQ", "Rec", "BLQ", "ALQ", "GLQ"]),
   ("BsmtFin Type 2", ["None", "Unf", "LwQ", "Rec", "BLQ", "ALQ", "GLQ"]),
   ("Garage Finish", ["None", "Unf", "RFn", "Fin"]),
   ("Land Slope", ["Gtl", "Mod", "Sev"]),
   ("Lot Shape", ["IR3", "IR2", "IR1", "Reg"]),
   ("Paved Drive", ["N", "P", "Y"]),
   ("Functional", ["Sal", "Sev", "Maj2", "Maj1", "Mod", "Min2", "Min1", "Typ"])]

/-- Dictionary lookup into ORDINAL_CATEGORIES. -/
def scaleOf (c : String) : List String :=
  ((ORDINAL_CATEGORIES.find? (fun p => p.1 == c)).map Prod.snd).getD []

/-- Ordinal columns kept numeric by make_preprocessor. -/
def ordinalNumeric : List String := ["Overall Qual", "Overall Cond"]

/-- Ordinal columns that go through the ordinal pipeline, in ORDINAL_COLS
order (list comprehension in make_preprocessor). -/
def ordinalEncode : List String :=
  ORDINAL_COLS.filter (fun c => !(ordinalNumeric.contains c))

/-! ## Cells and tables -/

/-- A cell of a pandas table: missing (NaN), a number, or a string. -/
inductive Val where
  | na : Val
  | num : ℚ → Val
  | str : String → Val
deriving DecidableEq, Repr

/-- A table is an ordered association list of named columns. -/
abbrev Table := List (String × List Val)

def colNames (t : Table) : List String := t.map Prod.fst

/-- Column selection by name (first match, as in pandas). -/
def getCol (t : Table) (c : String) : Option (List Val) :=
  (t.find? (fun p => p.1 == c)).map Prod.snd

def hasCol (t : Table) (c : String) : Bool := (getCol t c).isSome

def getColD (t : Table) (c : String) : List Val := (getCol t c).getD []

/-- DropColumns.transform: X.drop(columns=self.columns, errors="ignore"). -/
def dropColumns (cols : List String) (t : Table) : Table :=
  t.filter (fun p => !(cols.contains p.1))

/-! ## Code-point lexicographic string order (the order Python sorted and
numpy unique use on str values), given executably so the kernel can
evaluate it -/

def charListLe : List Char → List Char → Bool
  | [], _ => true
  | _ :: _, [] => false
  | x :: xs, y :: ys =>
    if x.toNat < y.toNat then true
    else if y.toNat < x.toNat then false
    else charListLe xs ys

def strLeProp (a b : String) : Prop := charListLe a.data b.data = true

instance : DecidableRel strLeProp := fun a b =>
  inferInstanceAs (Decidable (charListLe a.data b.data = true))

/-! ## Validation -/

/-- Expected column set of _validate_columns (before set difference). -/
def expectedCols (requireTarget : Bool) : List String :=
  NUMERIC_COLS ++ NOMINAL_COLS ++ ORDINAL_COLS ++ DROP_COLS ++
    (if requireTarget then [TARGET_COL] else [])

/-- sorted(list(set(expected) - set(df.columns))). -/
def missingCols (t : Table) (requireTarget : Bool) : List String :=
  (((expectedCols requireTarget).filter (fun c => !(hasCol t c))).dedup).insertionSort strLeProp

/-- Model of _validate_columns: raises ValueError listing the missing
columns. -/
def validateColumns (t : Table) (requireTarget : Bool) : Except (List String) Unit :=
  if missingCols t requireTarget = [] then Except.ok () else Except.error (missingCols t requireTarget)

/-! ## Imputation statistics -/

/-- Numeric cells of a column (NaN ignored, as np.nanmedian does). -/
def observedNums (vs : List Val) : List ℚ :=
  vs.filterMap (fun v => match v with | Val.num q => some q | _ => none)

/-- String cells of a column (NaN ignored). -/
def observedStrs (vs : List Val) : List String :=
  vs.filterMap (fun v => match v with | Val.str s => some s | _ => none)

/-- Median as numpy computes it: sort, middle element, or mean of the two
middle elements for even length. -/
def median (xs : List ℚ) : ℚ :=
  let s := xs.insertionSort (· ≤ ·)
  if s.length = 0 then 0
  else if s.length % 2 = 1 then s.getD (s.length / 2) 0
  else (s.getD (s.length / 2 - 1) 0 + s.getD (s.length / 2) 0) / 2

/-- Most frequent value, ties broken by the smallest value, matching
SimpleImputer(strategy="most_frequent") on object data. -/
def mode (xs : List String) : String :=
  let cats := (xs.dedup).insertionSort strLeProp
  match cats with
  | [] => ""
  | c :: rest => rest.foldl (fun acc c2 => if xs.count acc < xs.count c2 then c2 else acc) c

/-- String view of a cell after imputation with the fill value. -/
def valToStr (fill : String) : Val → String
  | Val.na => fill
  | Val.str s => s
  | Val.num q => toString q.num ++ "#" ++ toString q.den

/-- Numeric view of a cell after median imputation with m. -/
def fillNum (m : ℚ) : Val → ℚ
  | Val.num q => q
  | _ => m

/-- OneHotEncoder vocabulary for one column: np.unique of the
mode-imputed fit column, i.e. sorted distinct values. -/
def fittedCats (m : String) (vs : List Val) : List String :=
  ((vs.map (valToStr m)).dedup).insertionSort strLeProp

/-- One indicator output column of the OneHotEncoder for category c. -/
def oneHotColumn (m : String) (vs : List Val) (c : String) : List ℚ :=
  vs.map (fun v => if valToStr m v == c then 1 else 0)

/-- OrdinalEncoder(handle_unknown="use_encoded_value", unknown_value=-1)
applied after SimpleImputer(strategy="constant", fill_value="None"). -/
def ordEncode (scale : List String) (v : Val) : ℚ :=
  match scale.findIdx? (fun c => c == valToStr "None" v) with
  | some i => (i : ℚ)
  | none => -1

/-! ## Fitted state and the preprocessor -/

/-- State learned by fitting the ColumnTransformer, aligned with
NUMERIC_COLS, NOMINAL_COLS, ordinalNumeric and ordinalEncode. -/
structure FittedState where
  numMedians : List ℚ
  nomModes : List String
  nomCats : List (List String)
  ordNumMedians : List ℚ
  ordScales : List (List String)
deriving DecidableEq, Repr

/-- Columns the ColumnTransformer selects; transform and fit raise on any
table that lacks one of them. -/
def requiredInputCols : List String :=
  NUMERIC_COLS ++ NOMINAL_COLS ++ ordinalNumeric ++ ordinalEncode

def hasRequired (t : Table) : Bool := requiredInputCols.all (hasCol t)

/-- Statistics learned by fit, given that every required column exists. -/
def fitTotal (t : Table) : FittedState :=
  { numMedians := NUMERIC_COLS.map (fun c => median (observedNums (getColD t c)))
    nomModes := NOMINAL_COLS.map (fun c => mode (observedStrs (getColD t c)))
    nomCats := NOMINAL_COLS.map (fun c =>
      fittedCats (mode (observedStrs (getColD t c))) (getColD t c))
    ordNumMedians := ordinalNumeric.map (fun c => median (observedNums (getColD t c)))
    ordScales := ordinalEncode.map scaleOf }

/-- ColumnTransformer.fit of make_preprocessor. -/
def fitPreprocessor (t : Table) : Option FittedState :=
  if hasRequired t then some (fitTotal t) else none

/-- make_full_pipeline().fit(X, y): DropColumns.fit is the identity and
every fitted step ignores y. -/
def fitFullPipeline (X : Table) (_y : List Val) : Option FittedState :=
  fitPreprocessor (dropColumns DROP_COLS X)

/-- Output columns of the numeric pipeline (median imputation only). -/
def numericOut (st : FittedState) (t : Table) : List (List ℚ) :=
  List.zipWith (fun m c => (getColD t c).map (fillNum m)) st.numMedians NUMERIC_COLS

/-- Per-nominal-column blocks of one-hot indicator columns. -/
def nominalBlocks (st : FittedState) (t : Table) : List (List (List ℚ)) :=
  List.zipWith (fun (p : String × String) cats =>
      cats.map (fun cat => oneHotColumn p.2 (getColD t p.1) cat))
    (NOMINAL_COLS.zip st.nomModes) st.nomCats

/-- Output columns of the ordinal-numeric pipeline. -/
def ordinalNumericOut (st : FittedState) (t : Table) : List (List ℚ) :=
  List.zipWith (fun m c => (getColD t c).map (fillNum m)) st.ordNumMedians ordinalNumeric

/-- Output columns of the ordinal pipeline. -/
def ordinalOut (st : FittedState) (t : Table) : List (List ℚ) :=
  List.zipWith (fun sc c => (getColD t c).map (ordEncode sc)) st.ordScales ordinalEncode

/-- ColumnTransformer.transform: the four groups side by side, in the
declared transformer order, remainder dropped. -/
def transformTotal (st : FittedState) (t : Table) : List (List ℚ) :=
  numericOut st t ++ (nominalBlocks st t).flatten ++ ordinalNumericOut st t ++ ordinalOut st t

def transformPreprocessor (st : FittedState) (t : Table) : Option (List (List ℚ)) :=
  if hasRequired t then some (transformTotal st t) else none

/-- make_full_pipeline().transform(X). -/
def transformFullPipeline (st : FittedState) (X : Table) : Option (List (List ℚ)) :=
  transformPreprocessor st (dropColumns DROP_COLS X)

/-- get_feature_names_out with verbose_feature_names_out=False. -/
def featureNames (st : FittedState) : List String :=
  NUMERIC_COLS ++
    ((NOMINAL_COLS.zip st.nomCats).map (fun p => p.2.map (fun c => p.1 ++ "_" ++ c))).flatten ++
    ordinalNumeric ++ ordinalEncode

/-- Index of the first indicator column of nominal column j in the
transform output. -/
def nomBlockStart (st : FittedState) (j : Nat) : Nat :=
  NUMERIC_COLS.length + ((st.nomCats.take j).map List.length).sum

/-! ## Split helper -/

/-- split_X_y: validate with target required, then X = df minus the
target column, y = a copy of the target column. -/
def split_X_y (t : Table) : Except (List String) (Table × List Val) :=
  match validateColumns t true with
  | Except.error m => Except.error m
  | Except.ok _ => Except.ok (dropColumns [TARGET_COL] t, getColD t TARGET_COL)

/-! ## Spec-wording definition used for the refinement comparison -/

/-- Category order as the spec words it for the nominal one-hot blocks:
categories in order of first appearance in the mode-imputed fit column.
This follows the words of the spec, to be compared with fittedCats. -/
def specFirstSeenCats (m : String) (vs : List Val) : List String :=
  (vs.map (valToStr m)).dedup

/-! ## Shared concrete tables for witnesses -/

/-- A synthetic table with every taxonomy column, all rows sharing the
given per-group cell lists. -/
def mkTable (numv nomv ordv : List Val) : Table :=
  NUMERIC_COLS.map (fun c => (c, numv)) ++
  NOMINAL_COLS.map (fun c => (c, nomv)) ++
  ORDINAL_COLS.map (fun c => (c, ordv)) ++
  DROP_COLS.map (fun c => (c, numv))

def T1 : Table := mkTable [Val.num 1] [Val.str "Aaa"] [Val.str "TA"]

def U1 : Table := mkTable [Val.num 2] [Val.str "ZZZ"] [Val.na]

def stT1 : FittedState := fitTotal (dropColumns DROP_COLS T1)

def fullTrainTable : Table := T1 ++ [(TARGET_COL, [Val.num 100])]

def tableMissingTwo : Table := dropColumns ["Lot Area", "SalePrice"] fullTrainTable

def exampleSmallTable : Table := [("A", [Val.num 1]), ("B", [Val.str "x"])]

/-- Fit table whose nominal columns hold "RM" before "RL": first-seen
order and sorted order of the one-hot vocabulary disagree on it. -/
def T4 : Table := mkTable [Val.num 1, Val.num 3, Val.num 3]
  [Val.str "RM", Val.str "RL", Val.str "RL"]
  [Val.str "TA", Val.str "Gd", Val.str "Gd"]

def stT4 : FittedState := fitTotal (dropColumns DROP_COLS T4)

/-! ## Basic lemmas about the table model -/

theorem getCol_cons (a : String) (vs : List Val) (rest : Table) (c : String) :
    getCol ((a, vs) :: rest) c = if a == c then some vs else getCol rest c := by
  by_cases h : a == c <;> simp [getCol, List.find?, h]

theorem colNames_cons (a : String) (vs : List Val) (rest : Table) :
    colNames ((a, vs) :: rest) = a :: colNames rest := rfl

theorem hasCol_iff_mem (t : Table) (c : String) :
    hasCol t c = true ↔ c ∈ colNames t := by
  induction t with
  | nil => simp [hasCol, getCol, colNames]
  | cons p rest ih =>
    obtain ⟨a, vs⟩ := p
    rw [hasCol, getCol_cons, colNames_cons]
    by_cases h : a == c
    · have ha : a = c := eq_of_beq h
      subst ha
      simp
    · have hne : a ≠ c := fun he => h (by simp [he])
      rw [if_neg h, List.mem_cons, ← hasCol, ih]
      exact ⟨fun hm => Or.inr hm, fun hm => hm.elim (fun he => (hne he.symm).elim) id⟩

theorem getCol_dropColumns (cols : List String) (t : Table) (c : String)
    (h : cols.contains c = false) :
    getCol (dropColumns cols t) c = getCol t c := by
  induction t with
  | nil => rfl
  | cons p rest ih =>
    obtain ⟨a, vs⟩ := p
    by_cases hk : cols.contains a = true
    · have hne : (a == c) = false := by
        rcases Bool.eq_false_or_eq_true (a == c) with ht | hf
        · rw [eq_of_beq ht] at hk
          rw [hk] at h
          exact absurd h (by simp)
        · exact hf
      rw [dropColumns, List.filter_cons_of_neg (by simp [List.elem_iff.mp hk]),
        getCol_cons, if_neg (by simp [hne])]
      exact ih
    · have hk2 : a ∉ cols := fun hm => hk (List.elem_iff.mpr hm)
      rw [dropColumns, List.filter_cons_of_pos (by simp [hk2]), getCol_cons, getCol_cons]
      by_cases ha : a == c
      · rw [if_pos ha, if_pos ha]
      · rw [if_neg ha, if_neg ha]
        exact ih

theorem hasCol_dropColumns (cols : List String) (t : Table) (c : String)
    (h : cols.contains c = false) :
    hasCol (dropColumns cols t) c = hasCol t c := by
  rw [hasCol, hasCol, getCol_dropColumns cols t c h]

theorem getColD_dropColumns (cols : List String) (t : Table) (c : String)
    (h : cols.contains c = false) :
    getColD (dropColumns cols t) c = getColD t c := by
  rw [getColD, getColD, getCol_dropColumns cols t c h]

theorem required_not_dropped :
    requiredInputCols.all (fun c => !(DROP_COLS.contains c)) = true := by decide

theorem required_contains_drop_false (c : String) (hc : c ∈ requiredInputCols) :
    DROP_COLS.contains c = false := by
  have := List.all_eq_true.mp required_not_dropped c hc
  simpa using this

theorem hasRequired_dropColumns (t : Table) :
    hasRequired (dropColumns DROP_COLS t) = hasRequired t := by
  rw [hasRequired, hasRequired]
  apply Bool.eq_iff_iff.mpr
  rw [List.all_eq_true, List.all_eq_true]
  constructor
  · intro h c hc
    rw [← hasCol_dropColumns DROP_COLS t c (required_contains_drop_false c hc)]
    exact h c hc
  · intro h c hc
    rw [hasCol_dropColumns DROP_COLS t c (required_contains_drop_false c hc)]
    exact h c hc

/-! ## Index arithmetic lemmas -/

theorem getD_zipWith {α β γ : Type} (f : α → β → γ) (as : List α) (bs : List β)
    (i : Nat) (da : α) (db : β) (dc : γ) (ha : i < as.length) (hb : i < bs.length) :
    (List.zipWith f as bs).getD i dc = f (as.getD i da) (bs.getD i db) := by
  induction as generalizing bs i with
  | nil => simp at ha
  | cons a as ih =>
    cases bs with
    | nil => simp at hb
    | cons b bs =>
      cases i with
      | zero => rfl
      | succ j =>
        simp only [List.zipWith, List.getD_cons_succ]
        exact ih bs j (Nat.lt_of_succ_lt_succ ha) (Nat.lt_of_succ_lt_succ hb)

theorem getD_map {α β : Type} (f : α → β) (l : List α) (i : Nat) (d : β) (d0 : α)
    (h : i < l.length) :
    (l.map f).getD i d = f (l.getD i d0) := by
  induction l generalizing i with
  | nil => simp at h
  | cons a l ih =>
    cases i with
    | zero => rfl
    | succ j =>
      simp only [List.map, List.getD_cons_succ]
      exact ih j (Nat.lt_of_succ_lt_succ h)

theorem getD_zip {α β : Type} (as : List α) (bs : List β) (i : Nat)
    (da : α) (db : β) (ha : i < as.length) (hb : i < bs.length) :
    (as.zip bs).getD i (da, db) = (as.getD i da, bs.getD i db) := by
  rw [List.zip]
  exact getD_zipWith Prod.mk as bs i da db (da, db) ha hb

theorem flatten_getD {α : Type} (L : List (List α)) (j k : Nat) (d : α)
    (hj : j < L.length) (hk : k < (L.getD j []).length) :
    L.flatten.getD (((L.take j).map List.length).sum + k) d = (L.getD j []).getD k d := by
  induction L generalizing j with
  | nil => simp at hj
  | cons hd tl ih =>
    cases j with
    | zero =>
      simp only [List.take_zero, List.map_nil, List.sum_nil, Nat.zero_add,
        List.getD_cons_zero] at hk ⊢
      rw [List.flatten_cons, List.getD_append _ _ _ _ hk]
    | succ j =>
      simp only [List.getD_cons_succ] at hk ⊢
      rw [List.flatten_cons, List.take_succ_cons, List.map_cons, List.sum_cons,
        Nat.add_assoc, List.getD_append_right _ _ _ _ (Nat.le_add_right _ _),
        Nat.add_sub_cancel_left]
      exact ih j (Nat.lt_of_succ_lt_succ hj) hk

theorem zipWith_snd {α β γ : Type} (g : β → γ) (as : List α) (bs : List β)
    (h : bs.length ≤ as.length) :
    List.zipWith (fun _ b => g b) as bs = bs.map g := by
  induction as generalizing bs with
  | nil =>
    cases bs with
    | nil => rfl
    | cons b bs => simp at h
  | cons a as ih =>
    cases bs with
    | nil => rfl
    | cons b bs =>
      simp only [List.zipWith, List.map]
      rw [ih bs (Nat.le_of_succ_le_succ h)]

/-! ## The string order is total and transitive -/

theorem charListLe_total (xs ys : List Char) :
    charListLe xs ys = true ∨ charListLe ys xs = true := by
  induction xs generalizing ys with
  | nil => left; rfl
  | cons x xs ih =>
    cases ys with
    | nil => right; rfl
    | cons y ys =>
      by_cases h1 : x.toNat < y.toNat
      · left; simp [charListLe, h1]
      · by_cases h2 : y.toNat < x.toNat
        · right; simp [charListLe, h2]
        · rcases ih ys with h | h
          · left; simp [charListLe, h1, h2, h]
          · right; simp [charListLe, h1, h2, h]

theorem charListLe_trans (xs ys zs : List Char) (h1 : charListLe xs ys = true)
    (h2 : charListLe ys zs = true) : charListLe xs zs = true := by
  induction xs generalizing ys zs with
  | nil => rfl
  | cons x xs ih =>
    cases ys with
    | nil => simp [charListLe] at h1
    | cons y ys =>
      cases zs with
      | nil => simp [charListLe] at h2
      | cons z zs =>
        by_cases hxy : x.toNat < y.toNat
        · by_cases hyz : y.toNat < z.toNat
          · simp [charListLe, show x.toNat < z.toNat by omega]
          · by_cases hzy : z.toNat < y.toNat
            · simp [charListLe, hyz, hzy] at h2
            · simp [charListLe, show x.toNat < z.toNat by omega]
        · by_cases hyx : y.toNat < x.toNat
          · simp [charListLe, hxy, hyx] at h1
          · simp only [charListLe, if_neg hxy, if_neg hyx] at h1
            by_cases hyz : y.toNat < z.toNat
            · simp [charListLe, show x.toNat < z.toNat by omega]
            · by_cases hzy : z.toNat < y.toNat
              · simp [charListLe, hyz, hzy] at h2
              · simp only [charListLe, if_neg hyz, if_neg hzy] at h2
                simp only [charListLe, if_neg (show ¬ x.toNat < z.toNat by omega),
                  if_neg (show ¬ z.toNat < x.toNat by omega)]
                exact ih ys zs h1 h2

instance : IsTotal String strLeProp :=
  ⟨fun a b => charListLe_total a.data b.data⟩

instance : IsTrans String strLeProp :=
  ⟨fun a b c => charListLe_trans a.data b.data c.data⟩

/-! ## Validator lemmas -/

theorem mem_missingCols (t : Table) (rt : Bool) (c : String) :
    c ∈ missingCols t rt ↔ (c ∈ expectedCols rt ∧ hasCol t c = false) := by
  rw [missingCols, (List.perm_insertionSort _ _).mem_iff, List.mem_dedup, List.mem_filter]
  simp

theorem sorted_missingCols (t : Table) (rt : Bool) :
    List.Sorted strLeProp (missingCols t rt) :=
  List.sorted_insertionSort _ _

theorem validate_ok_iff (t : Table) (rt : Bool) :
    validateColumns t rt = Except.ok () ↔ missingCols t rt = [] := by
  rw [validateColumns]
  by_cases h : missingCols t rt = []
  · simp [h]
  · simp [h]

theorem contains_singleton (a b : String) : ([a] : List String).contains b = (b == a) := by
  by_cases h : b == a <;> simp [List.contains, List.elem, h]

theorem dropOne_length (t : Table) (c : String) (hnd : (colNames t).Nodup)
    (hc : hasCol t c = true) :
    (dropColumns [c] t).length = t.length - 1 := by
  induction t with
  | nil => simp [hasCol, getCol] at hc
  | cons p rest ih =>
    obtain ⟨a, vs⟩ := p
    rw [colNames_cons, List.nodup_cons] at hnd
    simp only [dropColumns, List.filter_cons]
    by_cases h : a == c
    · have ha : a = c := eq_of_beq h
      subst ha
      have hrest : List.filter (fun p => !(([a] : List String).contains p.1)) rest = rest := by
        rw [List.filter_eq_self]
        intro q hq
        have hq1 : q.1 ∈ colNames rest := List.mem_map_of_mem Prod.fst hq
        have hne2 : q.1 ≠ a := fun he => hnd.1 (he ▸ hq1)
        simp [contains_singleton, hne2]
      have hh : (!(([a] : List String).contains a)) = false := by
        simp [contains_singleton]
      simp only [hh]
      rw [if_neg (by simp), hrest]
      simp
    · have hne : a ≠ c := fun he => h (by simp [he])
      have hcrest : hasCol rest c = true := by
        rw [hasCol, getCol_cons, if_neg h] at hc
        exact hc
      have hh : (!(([c] : List String).contains a)) = true := by
        simp [contains_singleton, hne]
      simp only [hh]
      rw [if_pos trivial]
      have hlen := ih hnd.2 hcrest
      simp only [dropColumns] at hlen
      simp only [List.length_cons]
      rw [hlen]
      have hge : rest.length ≥ 1 := by
        cases rest with
        | nil => simp [hasCol, getCol] at hcrest
        | cons q rs => simp
      omega

theorem expected_has_of_validate_ok (t : Table) (rt : Bool)
    (h : validateColumns t rt = Except.ok ()) (c : String) (hc : c ∈ expectedCols rt) :
    hasCol t c = true := by
  rw [validate_ok_iff, List.eq_nil_iff_forall_not_mem] at h
  have := h c
  rw [mem_missingCols] at this
  rcases Bool.eq_false_or_eq_true (hasCol t c) with ht | hf
  · exact ht
  · exact absurd ⟨hc, hf⟩ this

/-! ## findIdx? lemmas for the ordinal encoder -/

theorem findIdxQ_eq_some_findIdx (l : List String) (p : String → Bool)
    (h : ∃ x ∈ l, p x = true) :
    l.findIdx? p = some (l.findIdx p) := by
  induction l with
  | nil => simp at h
  | cons a l ih =>
    by_cases ha : p a
    · simp [List.findIdx?_cons, List.findIdx_cons, ha]
    · obtain ⟨x, hx, hpx⟩ := h
      have hxl : x ∈ l := by
        rcases List.mem_cons.mp hx with he | hm
        · rw [he] at hpx; exact absurd hpx ha
        · exact hm
      simp [List.findIdx?_cons, List.findIdx_cons, ha, ih ⟨x, hxl, hpx⟩]

theorem findIdxQ_eq_none (l : List String) (p : String → Bool)
    (h : ∀ x ∈ l, p x = false) :
    l.findIdx? p = none := by
  induction l with
  | nil => rfl
  | cons a l ih =>
    have ha := h a (List.mem_cons_self a l)
    have hrec := ih (fun x hx => h x (List.mem_cons_of_mem a hx))
    simp [List.findIdx?_cons, ha, hrec]

theorem fitted_state_eq (T : Table) (y : List Val) (st : FittedState)
    (hfit : fitFullPipeline T y = some st) :
    st = fitTotal (dropColumns DROP_COLS T) := by
  rw [fitFullPipeline, fitPreprocessor] at hfit
  by_cases h : hasRequired (dropColumns DROP_COLS T)
  · rw [if_pos h] at hfit
    exact (Option.some.inj hfit).symm
  · rw [if_neg h] at hfit
    exact absurd hfit (by simp)

/-! ## Shape lemmas for the transform output -/

theorem getD_mem {α : Type} (l : List α) (i : Nat) (d : α) (h : i < l.length) :
    l.getD i d ∈ l := by
  induction l generalizing i with
  | nil => simp at h
  | cons a l ih =>
    cases i with
    | zero => exact List.mem_cons_self a l
    | succ j => exact List.mem_cons_of_mem a (ih j (Nat.lt_of_succ_lt_succ h))

theorem mem_zipWith {α β γ : Type} {f : α → β → γ} {c : γ} {as : List α} {bs : List β}
    (h : c ∈ List.zipWith f as bs) : ∃ a ∈ as, ∃ b ∈ bs, c = f a b := by
  induction as generalizing bs with
  | nil => simp at h
  | cons a as ih =>
    cases bs with
    | nil => simp at h
    | cons b bs =>
      rcases List.mem_cons.mp h with he | hm
      · exact ⟨a, List.mem_cons_self a as, b, List.mem_cons_self b bs, he⟩
      · obtain ⟨a2, ha2, b2, hb2, hc⟩ := ih hm
        exact ⟨a2, List.mem_cons_of_mem a ha2, b2, List.mem_cons_of_mem b hb2, hc⟩

theorem map_zip_snd {α β γ : Type} (f : β → γ) (as : List α) (bs : List β)
    (h : bs.length ≤ as.length) :
    (as.zip bs).map (fun p => f p.2) = bs.map f := by
  induction as generalizing bs with
  | nil =>
    cases bs with
    | nil => rfl
    | cons b bs => simp at h
  | cons a as ih =>
    cases bs with
    | nil => rfl
    | cons b bs =>
      rw [List.zip_cons_cons, List.map_cons, ih bs (Nat.le_of_succ_le_succ h), List.map_cons]

theorem zipWith_const_snd {α β δ : Type} (F : α → β → δ) (k : β → δ)
    (hk : ∀ a b, F a b = k b) (as : List α) (bs : List β) (h : bs.length ≤ as.length) :
    List.zipWith F as bs = bs.map k := by
  induction as generalizing bs with
  | nil =>
    cases bs with
    | nil => rfl
    | cons b bs => simp at h
  | cons a as ih =>
    cases bs with
    | nil => rfl
    | cons b bs =>
      simp only [List.zipWith, List.map]
      rw [ih bs (Nat.le_of_succ_le_succ h), hk]

theorem sum_take_lt (L : List Nat) (j k : Nat) (hj : j < L.length) (hk : k < L.getD j 0) :
    (L.take j).sum + k < L.sum := by
  induction L generalizing j with
  | nil => simp at hj
  | cons a L ih =>
    cases j with
    | zero =>
      simp only [List.getD_cons_zero] at hk
      simp only [List.take_zero, List.sum_nil, List.sum_cons]
      have : (0:Nat) ≤ L.sum := Nat.zero_le _
      omega
    | succ j =>
      simp only [List.getD_cons_succ] at hk
      have := ih j (Nat.lt_of_succ_lt_succ hj) hk
      simp only [List.take_succ_cons, List.sum_cons]
      omega

theorem fitTotal_len_num (t : Table) :
    (fitTotal t).numMedians.length = NUMERIC_COLS.length := by
  simp [fitTotal]

theorem fitTotal_len_modes (t : Table) :
    (fitTotal t).nomModes.length = NOMINAL_COLS.length := by
  simp [fitTotal]

theorem fitTotal_len_cats (t : Table) :
    (fitTotal t).nomCats.length = NOMINAL_COLS.length := by
  simp [fitTotal]

theorem fitTotal_len_ordNum (t : Table) :
    (fitTotal t).ordNumMedians.length = ordinalNumeric.length := by
  simp [fitTotal]

theorem fitTotal_len_ord (t : Table) :
    (fitTotal t).ordScales.length = ordinalEncode.length := by
  simp [fitTotal]

/-- The per-column one-hot block widths are the fitted vocabulary sizes. -/
theorem nominalBlocks_map_length (st : FittedState) (t : Table)
    (h2 : st.nomModes.length = NOMINAL_COLS.length)
    (h3 : st.nomCats.length = NOMINAL_COLS.length) :
    (nominalBlocks st t).map List.length = st.nomCats.map List.length := by
  rw [nominalBlocks, List.map_zipWith]
  have hz : st.nomCats.length ≤ (NOMINAL_COLS.zip st.nomModes).length := by
    rw [List.length_zip, h2, h3]
    simp
  exact zipWith_const_snd _ List.length (fun a b => by simp [List.length_map]) _ _ hz

/-- The number of output columns equals the number of fitted feature
names, whatever the input table. -/
theorem transformTotal_length (st : FittedState) (t : Table)
    (h1 : st.numMedians.length = NUMERIC_COLS.length)
    (h2 : st.nomModes.length = NOMINAL_COLS.length)
    (h3 : st.nomCats.length = NOMINAL_COLS.length)
    (h4 : st.ordNumMedians.length = ordinalNumeric.length)
    (h5 : st.ordScales.length = ordinalEncode.length) :
    (transformTotal st t).length = (featureNames st).length := by
  rw [transformTotal, featureNames]
  simp only [List.length_append]
  have e1 : (numericOut st t).length = NUMERIC_COLS.length := by
    rw [numericOut, List.length_zipWith, h1]
    simp
  have e2 : ((nominalBlocks st t).flatten).length = (st.nomCats.map List.length).sum := by
    rw [List.length_flatten, nominalBlocks_map_length st t h2 h3]
  have e3 : (ordinalNumericOut st t).length = ordinalNumeric.length := by
    rw [ordinalNumericOut, List.length_zipWith, h4]
    simp
  have e4 : (ordinalOut st t).length = ordinalEncode.length := by
    rw [ordinalOut, List.length_zipWith, h5]
    simp
  have e5 : (((NOMINAL_COLS.zip st.nomCats).map
      (fun p => p.2.map (fun c => p.1 ++ "_" ++ c))).flatten).length
      = (st.nomCats.map List.length).sum := by
    rw [List.length_flatten, List.map_map]
    have : (List.length ∘ fun (p : String × List String) =>
        p.2.map (fun c => p.1 ++ "_" ++ c)) = fun p => p.2.length := by
      funext p
      simp [List.length_map]
    rw [this, map_zip_snd List.length _ _ (by rw [h3])]
  rw [e1, e2, e3, e4, e5]

theorem mem_required_of_numeric (c : String) (h : c ∈ NUMERIC_COLS) :
    c ∈ requiredInputCols := by
  rw [requiredInputCols]
  exact List.mem_append_left _ (List.mem_append_left _ (List.mem_append_left _ h))

theorem mem_required_of_nominal (c : String) (h : c ∈ NOMINAL_COLS) :
    c ∈ requiredInputCols := by
  rw [requiredInputCols]
  exact List.mem_append_left _ (List.mem_append_left _ (List.mem_append_right _ h))

theorem mem_required_of_ordNum (c : String) (h : c ∈ ordinalNumeric) :
    c ∈ requiredInputCols := by
  rw [requiredInputCols]
  exact List.mem_append_left _ (List.mem_append_right _ h)

theorem mem_required_of_ord (c : String) (h : c ∈ ordinalEncode) :
    c ∈ requiredInputCols := by
  rw [requiredInputCols]
  exact List.mem_append_right _ h

theorem getColD_length (t : Table) (c : String) (n : Nat)
    (hn : ∀ p ∈ t, p.2.length = n) (hc : hasCol t c = true) :
    (getColD t c).length = n := by
  rw [getColD]
  cases hfind : t.find? (fun p => p.1 == c) with
  | none =>
    rw [hasCol, getCol, hfind] at hc
    simp at hc
  | some p =>
    have hp : p ∈ t := List.mem_of_find?_eq_some hfind
    rw [getCol, hfind]
    simp [hn p hp]

theorem fst_mem_of_mem_zip {α β : Type} {p : α × β} {as : List α} {bs : List β}
    (h : p ∈ as.zip bs) : p.1 ∈ as := by
  rw [List.zip] at h
  obtain ⟨a, ha, b, hb, he⟩ := mem_zipWith h
  rw [he]
  exact ha

/-- Sortedness of the fitted one-hot vocabulary of a column. -/
theorem sorted_fittedCats (m : String) (vs : List Val) :
    List.Sorted strLeProp (fittedCats m vs) := by
  rw [fittedCats]
  exact List.sorted_insertionSort _ _

/-! ## Claim theorems -/

/-- C3: the validator errors exactly when some expected column (the four
taxonomy groups plus the target when required) is absent, its error lists
every missing expected column sorted, it tolerates extra columns (only
expected columns matter to the outcome), and it returns cleanly when
nothing is missing. -/
theorem validator_correct (t : Table) (rt : Bool) :
    (validateColumns t rt = Except.ok () ↔ ∀ c ∈ expectedCols rt, hasCol t c = true)
    ∧ List.Sorted strLeProp (missingCols t rt)
    ∧ (∀ c, c ∈ missingCols t rt ↔ (c ∈ expectedCols rt ∧ hasCol t c = false))
    ∧ (missingCols t rt ≠ [] → validateColumns t rt = Except.error (missingCols t rt))
    ∧ (missingCols t rt = [] → validateColumns t rt = Except.ok ()) := by
  refine ⟨?_, sorted_missingCols t rt, fun c => mem_missingCols t rt c, ?_, ?_⟩
  · rw [validate_ok_iff, List.eq_nil_iff_forall_not_mem]
    constructor
    · intro h c hc
      have := h c
      rw [mem_missingCols] at this
      rcases Bool.eq_false_or_eq_true (hasCol t c) with ht | hf
      · exact ht
      · exact absurd ⟨hc, hf⟩ this
    · intro h c hm
      rw [mem_missingCols] at hm
      rw [h c hm.1] at hm
      exact absurd hm.2 (by simp)
  · intro h
    rw [validateColumns, if_neg h]
  · intro h
    rw [validateColumns, if_pos h]

/-- C3 witness: on a table missing exactly Lot Area and SalePrice, the
validator reports exactly those two names, alphabetically sorted. -/
theorem validator_correct_witness :
    validateColumns tableMissingTwo true = Except.error ["Lot Area", "SalePrice"] := by
  have h := (validator_correct tableMissingTwo true).2.2.2.1 (by decide)
  rw [show missingCols tableMissingTwo true = ["Lot Area", "SalePrice"] from by decide] at h
  exact h

/-- C7: the column dropper keeps exactly the non-listed columns with
their values untouched and in order, never fails (in particular dropping
columns that are all absent is the identity), and is idempotent. -/
theorem dropColumns_correct (cols : List String) (t : Table) :
    (∀ p : String × List Val, p ∈ dropColumns cols t ↔ (p ∈ t ∧ p.1 ∉ cols))
    ∧ (dropColumns cols t).Sublist t
    ∧ (∀ c, cols.contains c = false → getCol (dropColumns cols t) c = getCol t c)
    ∧ dropColumns cols (dropColumns cols t) = dropColumns cols t
    ∧ ((∀ c ∈ cols, hasCol t c = false) → dropColumns cols t = t) := by
  refine ⟨?_, List.filter_sublist t, fun c h => getCol_dropColumns cols t c h, ?_, ?_⟩
  · intro p
    rw [dropColumns, List.mem_filter]
    simp
  · simp only [dropColumns, List.filter_filter]
    simp
  · intro h
    rw [dropColumns, List.filter_eq_self]
    intro p hp
    simp only [Bool.not_eq_true']
    rcases Bool.eq_false_or_eq_true (cols.contains p.1) with ht | hf
    · have hmem : p.1 ∈ colNames t := List.mem_map_of_mem Prod.fst hp
      have := h p.1 (List.elem_iff.mp ht)
      rw [(hasCol_iff_mem t p.1).mpr hmem] at this
      exact absurd this (by simp)
    · exact hf

/-- C7 witness: dropping a list of absent columns leaves a concrete table
unchanged. -/
theorem dropColumns_correct_witness :
    dropColumns ["Foo", "Bar"] exampleSmallTable = exampleSmallTable :=
  (dropColumns_correct ["Foo", "Bar"] exampleSmallTable).2.2.2.2 (by decide)

/-- C5: on a labeled table with the full expected schema, split_X_y
returns X equal to the table with only the target column removed (same
rows, one fewer column, the drop-list columns still present) and y a copy
of the target column; on a table failing validation it propagates the
validation error instead. -/
theorem split_X_y_correct (t : Table) (hnd : (colNames t).Nodup) :
    (∀ m, validateColumns t true = Except.error m → split_X_y t = Except.error m)
    ∧ (validateColumns t true = Except.ok () →
        split_X_y t = Except.ok (dropColumns [TARGET_COL] t, getColD t TARGET_COL)
        ∧ (dropColumns [TARGET_COL] t).length = t.length - 1
        ∧ (∀ c, c ≠ TARGET_COL → getCol (dropColumns [TARGET_COL] t) c = getCol t c)
        ∧ (∀ c ∈ DROP_COLS, hasCol (dropColumns [TARGET_COL] t) c = true)
        ∧ (∀ n, (∀ p ∈ t, p.2.length = n) → ∀ p ∈ dropColumns [TARGET_COL] t, p.2.length = n)) := by
  constructor
  · intro m hm
    rw [split_X_y, hm]
  · intro hok
    have htgt : hasCol t TARGET_COL = true :=
      expected_has_of_validate_ok t true hok TARGET_COL (by decide)
    refine ⟨by rw [split_X_y, hok], dropOne_length t TARGET_COL hnd htgt, ?_, ?_, ?_⟩
    · intro c hc
      apply getCol_dropColumns
      rw [contains_singleton]
      simp [hc]
    · intro c hc
      have hcne : ([TARGET_COL] : List String).contains c = false := by
        have hall : ∀ x ∈ DROP_COLS, x ≠ TARGET_COL := by decide
        rw [contains_singleton]
        simp [hall c hc]
      rw [hasCol_dropColumns _ _ _ hcne]
      exact expected_has_of_validate_ok t true hok c (by
        have hsub : ∀ x ∈ DROP_COLS, x ∈ expectedCols true := by decide
        exact hsub c hc)
    · intro n hn p hp
      simp only [dropColumns] at hp
      exact hn p (List.mem_of_mem_filter hp)

/-- C5 witness: split_X_y on a concrete full training table returns the
table minus SalePrice and the SalePrice column, with one fewer column. -/
theorem split_X_y_correct_witness :
    split_X_y fullTrainTable
      = Except.ok (dropColumns [TARGET_COL] fullTrainTable, getColD fullTrainTable TARGET_COL)
    ∧ (dropColumns [TARGET_COL] fullTrainTable).length = fullTrainTable.length - 1 := by
  have h := (split_X_y_correct fullTrainTable (by decide)).2 (by rfl)
  exact ⟨h.1, h.2.1⟩

/-- C2 counterexample: for the ordinal-encoded column Land Slope the
fixed scale has no "None" entry, so a missing value (imputed to the
constant "None", which the encoder then does not know) is encoded to the
out-of-range sentinel -1 and not to the rank of any sentinel category:
the claim as stated fails on this column. -/
theorem ordinal_missing_counterexample :
    "Land Slope" ∈ ordinalEncode
    ∧ ¬ "None" ∈ scaleOf "Land Slope"
    ∧ ordEncode (scaleOf "Land Slope") Val.na = -1
    ∧ ordEncode (scaleOf "Land Slope") Val.na < 0 := by decide

/-- C2 amended: the fitted scales are exactly the configured ordinal
scales; for every ordinal-encoded column whose scale contains the
sentinel "None", a missing value encodes to the rank of "None"; for the
columns whose scale lacks "None", a missing value encodes to -1; and any
label outside the fitted scale encodes to -1 — all without error. -/
theorem ordinal_encoding_correct (T : Table) (y : List Val) (st : FittedState)
    (hfit : fitFullPipeline T y = some st) :
    st.ordScales = ordinalEncode.map scaleOf
    ∧ (∀ c ∈ ordinalEncode, "None" ∈ scaleOf c →
        ordEncode (scaleOf c) Val.na = (((scaleOf c).findIdx (fun x => x == "None")) : ℚ))
    ∧ (∀ c ∈ ordinalEncode, "None" ∉ scaleOf c → ordEncode (scaleOf c) Val.na = -1)
    ∧ (∀ c ∈ ordinalEncode, ∀ s : String, s ∉ scaleOf c →
        ordEncode (scaleOf c) (Val.str s) = -1) := by
  refine ⟨?_, ?_, ?_, ?_⟩
  · rw [fitted_state_eq T y st hfit]
    rfl
  · intro c _ hmem
    rw [ordEncode, findIdxQ_eq_some_findIdx _ _ ⟨"None", hmem, by rfl⟩]
    rfl
  · intro c _ hmem
    rw [ordEncode, findIdxQ_eq_none]
    intro x hx
    rcases Bool.eq_false_or_eq_true (x == valToStr "None" Val.na) with ht | hf
    · rw [eq_of_beq ht] at hx
      exact absurd hx hmem
    · exact hf
  · intro c _ s hs
    rw [ordEncode, findIdxQ_eq_none]
    intro x hx
    rcases Bool.eq_false_or_eq_true (x == valToStr "None" (Val.str s)) with ht | hf
    · rw [eq_of_beq ht] at hx
      exact absurd hx hs
    · exact hf

/-- C2 witness: after fitting on the concrete table T1, the fitted scales
are the configured ones and a missing Exter Qual value encodes to the
rank of its "None" sentinel. -/
theorem ordinal_encoding_correct_witness :
    stT1.ordScales = ordinalEncode.map scaleOf
    ∧ ordEncode (scaleOf "Exter Qual") Val.na
        = (((scaleOf "Exter Qual").findIdx (fun x => x == "None")) : ℚ) := by
  have h := ordinal_encoding_correct T1 [] stT1 (by decide)
  exact ⟨h.1, h.2.1 "Exter Qual" (by decide) (by decide)⟩

/-- C10: for each of the four ordinal columns whose configured scale has
no "None" label, a missing value is imputed to "None", which the fitted
scale does not contain, so it encodes to the sentinel -1, which is not
the rank of any entry of the scale. -/
theorem ordinal_no_none_missing (c : String)
    (hc : c ∈ ["Land Slope", "Lot Shape", "Paved Drive", "Functional"]) :
    c ∈ ordinalEncode
    ∧ "None" ∉ scaleOf c
    ∧ ordEncode (scaleOf c) Val.na = -1
    ∧ (∀ i : Nat, i < (scaleOf c).length → ((i : ℚ) ≠ -1)) := by
  have h4 : ∀ x ∈ (["Land Slope", "Lot Shape", "Paved Drive", "Functional"] : List String),
      x ∈ ordinalEncode ∧ "None" ∉ scaleOf x ∧ ordEncode (scaleOf x) Val.na = -1 := by decide
  obtain ⟨h1, h2, h3⟩ := h4 c hc
  refine ⟨h1, h2, h3, ?_⟩
  intro i _ h
  have h0 : (0 : ℚ) ≤ (i : ℚ) := Nat.cast_nonneg i
  rw [h] at h0
  norm_num at h0

/-- C10 witness: the Functional column concretely encodes a missing value
to -1, and -1 is no rank of its eight-entry scale. -/
theorem ordinal_no_none_missing_witness :
    "Functional" ∈ ordinalEncode
    ∧ "None" ∉ scaleOf "Functional"
    ∧ ordEncode (scaleOf "Functional") Val.na = -1
    ∧ (∀ i : Nat, i < (scaleOf "Functional").length → ((i : ℚ) ≠ -1)) :=
  ordinal_no_none_missing "Functional" (by decide)

/-- C6: fitting on the same training table twice yields the same fitted
state, and transforming any input after each fit gives identical output;
the second fit fully determines the state used afterwards. -/
theorem fit_deterministic (T : Table) (y : List Val) (U : Table) (st1 st2 : FittedState)
    (h1 : fitFullPipeline T y = some st1) (h2 : fitFullPipeline T y = some st2) :
    st1 = st2 ∧ transformFullPipeline st1 U = transformFullPipeline st2 U := by
  rw [h1] at h2
  have h := Option.some.inj h2
  exact ⟨h, by rw [h]⟩

/-- C6 witness: two fits on the concrete table T1 agree, and so do the
transforms of U1 under each. -/
theorem fit_deterministic_witness :
    stT1 = stT1 ∧ transformFullPipeline stT1 U1 = transformFullPipeline stT1 U1 :=
  fit_deterministic T1 [] U1 stT1 stT1 (by decide) (by decide)

/-- C8: the target argument passed to fit has no influence: fitting with
any two target vectors produces the same state, hence the same transform
output on every input. -/
theorem fit_ignores_y (X : Table) (y1 y2 : List Val) (U : Table) :
    fitFullPipeline X y1 = fitFullPipeline X y2
    ∧ (∀ st1 st2, fitFullPipeline X y1 = some st1 → fitFullPipeline X y2 = some st2 →
        transformFullPipeline st1 U = transformFullPipeline st2 U) := by
  refine ⟨rfl, ?_⟩
  intro st1 st2 h1 h2
  have he : fitFullPipeline X y1 = fitFullPipeline X y2 := rfl
  rw [← he, h1] at h2
  rw [Option.some.inj h2]

/-- C8 witness: two concrete distinct target vectors on T1 yield the same
fit, and the transforms of U1 agree. -/
theorem fit_ignores_y_witness :
    fitFullPipeline T1 [Val.num 1] = fitFullPipeline T1 [Val.num 2]
    ∧ transformFullPipeline stT1 U1 = transformFullPipeline stT1 U1 :=
  ⟨(fit_ignores_y T1 [Val.num 1] [Val.num 2] U1).1,
   (fit_ignores_y T1 [Val.num 1] [Val.num 2] U1).2 stT1 stT1 (by decide) (by decide)⟩

/-- C9: on any input with every required column, transform succeeds, the
output has exactly the fitted number of feature columns, and every
output column is a total column of rationals with one entry per input
row: value-level missingness is resolved by the total imputations and
encodings (median, mode, constant sentinel), never by an error or a
missing output entry. -/
theorem transform_total_defined (T : Table) (y : List Val) (st : FittedState)
    (hfit : fitFullPipeline T y = some st) (U : Table) (hreq : hasRequired U = true) :
    ∃ out, transformFullPipeline st U = some out
      ∧ out.length = (featureNames st).length
      ∧ (∀ n, (∀ p ∈ U, p.2.length = n) → ∀ col ∈ out, col.length = n) := by
  have hst := fitted_state_eq T y st hfit
  have hreq2 : hasRequired (dropColumns DROP_COLS U) = true := by
    rw [hasRequired_dropColumns]
    exact hreq
  refine ⟨transformTotal st (dropColumns DROP_COLS U), ?_, ?_, ?_⟩
  · rw [transformFullPipeline, transformPreprocessor, if_pos hreq2]
  · exact transformTotal_length st _ (by rw [hst, fitTotal_len_num])
      (by rw [hst, fitTotal_len_modes]) (by rw [hst, fitTotal_len_cats])
      (by rw [hst, fitTotal_len_ordNum]) (by rw [hst, fitTotal_len_ord])
  · intro n hn col hcol
    have hU : ∀ c ∈ requiredInputCols, hasCol U c = true := by
      rw [hasRequired, List.all_eq_true] at hreq
      exact hreq
    have hlen : ∀ c ∈ requiredInputCols, (getColD (dropColumns DROP_COLS U) c).length = n := by
      intro c hc
      rw [getColD_dropColumns DROP_COLS U c (required_contains_drop_false c hc)]
      exact getColD_length U c n hn (hU c hc)
    rw [transformTotal] at hcol
    rcases List.mem_append.mp hcol with hcol | hord
    rcases List.mem_append.mp hcol with hcol | hordnum
    rcases List.mem_append.mp hcol with hnum | hflat
    · obtain ⟨m, _, cname, hcname, he⟩ := mem_zipWith hnum
      rw [he, List.length_map]
      exact hlen cname (mem_required_of_numeric cname hcname)
    · obtain ⟨block, hblock, hin⟩ := List.mem_flatten.mp hflat
      rw [nominalBlocks] at hblock
      obtain ⟨p, hp, cats, _, hbe⟩ := mem_zipWith hblock
      rw [hbe] at hin
      obtain ⟨cat, _, hce⟩ := List.mem_map.mp hin
      rw [← hce, oneHotColumn, List.length_map]
      exact hlen p.1 (mem_required_of_nominal p.1 (fst_mem_of_mem_zip hp))
    · obtain ⟨m, _, cname, hcname, he⟩ := mem_zipWith hordnum
      rw [he, List.length_map]
      exact hlen cname (mem_required_of_ordNum cname hcname)
    · obtain ⟨sc, _, cname, hcname, he⟩ := mem_zipWith hord
      rw [he, List.length_map]
      exact hlen cname (mem_required_of_ord cname hcname)

/-- C9 witness: the fitted pipeline transforms the concrete one-row table
U1 (with missing ordinal cells) into a full 67-column output. -/
theorem transform_total_defined_witness :
    ∃ out, transformFullPipeline stT1 U1 = some out
      ∧ out.length = (featureNames stT1).length
      ∧ (∀ n, (∀ p ∈ U1, p.2.length = n) → ∀ col ∈ out, col.length = n) :=
  transform_total_defined T1 [] stT1 (by decide) U1 (by decide)

/-- C4 counterexample: fitting on T4, whose first nominal column MS
Zoning holds "RM" before "RL", produces the one-hot vocabulary in sorted
order ["RL", "RM"], not in the first-seen order ["RM", "RL"] the claim
states; the block order of the transform output follows the fitted
vocabulary, so the stated ordering is wrong. -/
theorem output_layout_counterexample :
    fitFullPipeline T4 [] = some stT4
    ∧ stT4.nomCats.getD 0 [] = ["RL", "RM"]
    ∧ specFirstSeenCats (stT4.nomModes.getD 0 "")
        (getColD (dropColumns DROP_COLS T4) (NOMINAL_COLS.getD 0 "")) = ["RM", "RL"]
    ∧ stT4.nomCats.getD 0 []
        ≠ specFirstSeenCats (stT4.nomModes.getD 0 "")
            (getColD (dropColumns DROP_COLS T4) (NOMINAL_COLS.getD 0 "")) := by decide

/-- C4 amended: the transform output is the numeric columns, then the
one-hot blocks grouped by source column with the categories of each
block in sorted (lexicographic) order — not first-seen order — then the
ordinal-numeric columns, then one rank column per ordinal column; and
the output column count equals the fitted feature-name count on every
input, so count and order are fixed by the fitted state alone. -/
theorem output_layout (T : Table) (y : List Val) (st : FittedState)
    (hfit : fitFullPipeline T y = some st) :
    (∀ j, List.Sorted strLeProp (st.nomCats.getD j []))
    ∧ (∀ U, hasRequired U = true →
        transformFullPipeline st U
          = some (numericOut st (dropColumns DROP_COLS U)
              ++ (nominalBlocks st (dropColumns DROP_COLS U)).flatten
              ++ ordinalNumericOut st (dropColumns DROP_COLS U)
              ++ ordinalOut st (dropColumns DROP_COLS U))
        ∧ (transformTotal st (dropColumns DROP_COLS U)).length = (featureNames st).length) := by
  have hst := fitted_state_eq T y st hfit
  constructor
  · intro j
    by_cases hj : j < st.nomCats.length
    · have hj2 : j < NOMINAL_COLS.length := by
        rw [hst, fitTotal_len_cats] at hj
        exact hj
      rw [hst]
      rw [show (fitTotal (dropColumns DROP_COLS T)).nomCats
          = NOMINAL_COLS.map (fun c =>
              fittedCats (mode (observedStrs (getColD (dropColumns DROP_COLS T) c)))
                (getColD (dropColumns DROP_COLS T) c)) from rfl]
      rw [getD_map _ _ _ _ "" hj2]
      exact sorted_fittedCats _ _
    · rw [List.getD_eq_default _ _ (Nat.le_of_not_lt hj)]
      exact List.sorted_nil
  · intro U hrequ
    have hreq2 : hasRequired (dropColumns DROP_COLS U) = true := by
      rw [hasRequired_dropColumns]
      exact hrequ
    constructor
    · rw [transformFullPipeline, transformPreprocessor, if_pos hreq2]
      rfl
    · exact transformTotal_length st _ (by rw [hst, fitTotal_len_num])
        (by rw [hst, fitTotal_len_modes]) (by rw [hst, fitTotal_len_cats])
        (by rw [hst, fitTotal_len_ordNum]) (by rw [hst, fitTotal_len_ord])

/-- C1: for a fitted pipeline and a one-row input whose value in a
nominal column is a string the fitted vocabulary of that column does not
contain, transform succeeds, keeps the fitted output column count, and
every indicator column of the one-hot block of that column is zero. -/
theorem unseen_nominal_all_zero (T U : Table) (y : List Val) (st : FittedState)
    (hfit : fitFullPipeline T y = some st) (hreq : hasRequired U = true)
    (j : Nat) (hj : j < NOMINAL_COLS.length) (s : String)
    (hval : getCol U (NOMINAL_COLS.getD j "") = some [Val.str s])
    (hunseen : s ∉ st.nomCats.getD j []) :
    ∃ out, transformFullPipeline st U = some out
      ∧ out.length = (featureNames st).length
      ∧ (∀ k, k < (st.nomCats.getD j []).length →
          out.getD (nomBlockStart st j + k) [] = [(0 : ℚ)]) := by
  have hst := fitted_state_eq T y st hfit
  have h1 : st.numMedians.length = NUMERIC_COLS.length := by rw [hst, fitTotal_len_num]
  have h2 : st.nomModes.length = NOMINAL_COLS.length := by rw [hst, fitTotal_len_modes]
  have h3 : st.nomCats.length = NOMINAL_COLS.length := by rw [hst, fitTotal_len_cats]
  have h4 : st.ordNumMedians.length = ordinalNumeric.length := by rw [hst, fitTotal_len_ordNum]
  have h5 : st.ordScales.length = ordinalEncode.length := by rw [hst, fitTotal_len_ord]
  have hreq2 : hasRequired (dropColumns DROP_COLS U) = true := by
    rw [hasRequired_dropColumns]
    exact hreq
  refine ⟨transformTotal st (dropColumns DROP_COLS U), ?_,
    transformTotal_length st _ h1 h2 h3 h4 h5, ?_⟩
  · rw [transformFullPipeline, transformPreprocessor, if_pos hreq2]
  · intro k hk
    have hcmem : NOMINAL_COLS.getD j "" ∈ NOMINAL_COLS := getD_mem _ j _ hj
    have hvals : getColD (dropColumns DROP_COLS U) (NOMINAL_COLS.getD j "")
        = [Val.str s] := by
      rw [getColD_dropColumns DROP_COLS U _
        (required_contains_drop_false _ (mem_required_of_nominal _ hcmem))]
      rw [getColD, hval]
      rfl
    set t2 := dropColumns DROP_COLS U with ht2
    have e1 : (numericOut st t2).length = NUMERIC_COLS.length := by
      rw [numericOut, List.length_zipWith, h1]
      simp
    have hjc : j < st.nomCats.length := by
      rw [h3]
      exact hj
    have hassoc : transformTotal st t2
        = numericOut st t2 ++ ((nominalBlocks st t2).flatten
            ++ (ordinalNumericOut st t2 ++ ordinalOut st t2)) := by
      rw [transformTotal, List.append_assoc, List.append_assoc]
    rw [hassoc]
    have hidx : nomBlockStart st j + k
        = (numericOut st t2).length + (((st.nomCats.take j).map List.length).sum + k) := by
      rw [e1, nomBlockStart]
      omega
    rw [hidx, List.getD_append_right _ _ _ _ (Nat.le_add_right _ _), Nat.add_sub_cancel_left]
    have hmapl := nominalBlocks_map_length st t2 h2 h3
    have hflatlen : ((nominalBlocks st t2).flatten).length
        = (st.nomCats.map List.length).sum := by
      rw [List.length_flatten, hmapl]
    have hblen : j < (nominalBlocks st t2).length := by
      rw [nominalBlocks, List.length_zipWith, List.length_zip, h2, h3]
      simp [hj]
    have hblock : (nominalBlocks st t2).getD j []
        = (st.nomCats.getD j []).map
            (fun cat => oneHotColumn (st.nomModes.getD j "")
              (getColD t2 (NOMINAL_COLS.getD j "")) cat) := by
      rw [nominalBlocks,
        getD_zipWith _ _ _ j ("", "") [] [] (by rw [List.length_zip, h2]; simp [hj]) hjc]
      rw [getD_zip _ _ j "" "" hj (by rw [h2]; exact hj)]
    have hkb : k < ((nominalBlocks st t2).getD j []).length := by
      rw [hblock, List.length_map]
      exact hk
    have hoff : ((st.nomCats.take j).map List.length).sum
        = (((nominalBlocks st t2).take j).map List.length).sum := by
      rw [List.map_take, List.map_take, hmapl]
    have hmlt : ((st.nomCats.take j).map List.length).sum + k
        < ((nominalBlocks st t2).flatten).length := by
      rw [hflatlen, List.map_take]
      exact sum_take_lt (st.nomCats.map List.length) j k
        (by rw [List.length_map]; exact hjc)
        (by rw [getD_map _ _ _ 0 [] hjc]; exact hk)
    rw [List.getD_append _ _ _ _ hmlt, hoff, flatten_getD _ j k _ hblen hkb, hblock]
    rw [getD_map _ _ _ _ "" hk, hvals, oneHotColumn]
    have hcat : (st.nomCats.getD j []).getD k "" ∈ st.nomCats.getD j [] := getD_mem _ k _ hk
    have hne2 : s ≠ (st.nomCats.getD j []).getD k "" := by
      intro he
      apply hunseen
      rw [he]
      exact hcat
    have hne : (s == (st.nomCats.getD j []).getD k "") = false :=
      beq_eq_false_iff_ne.mpr hne2
    rw [List.map_cons, List.map_nil]
    have hv : valToStr (st.nomModes.getD j "") (Val.str s) = s := rfl
    rw [hv, hne]
    simp

/-- C1 witness: T1 was fitted with "Aaa" in every nominal column; the
one-row table U1 carries the unseen value "ZZZ" in MS Zoning, and its
whole MS Zoning block comes out zero with the fitted column count. -/
theorem unseen_nominal_all_zero_witness :
    ∃ out, transformFullPipeline stT1 U1 = some out
      ∧ out.length = (featureNames stT1).length
      ∧ (∀ k, k < (stT1.nomCats.getD 0 []).length →
          out.getD (nomBlockStart stT1 0 + k) [] = [(0 : ℚ)]) :=
  unseen_nominal_all_zero T1 U1 [] stT1 (by decide) (by decide) 0 (by decide) "ZZZ"
    (by decide) (by decide)

/-- C4 witness: on the fitted state of T1, the first one-hot vocabulary
is sorted and the transform of U1 is the concatenation of the four
groups in order. -/
theorem output_layout_witness :
    List.Sorted strLeProp (stT1.nomCats.getD 0 [])
    ∧ transformFullPipeline stT1 U1
        = some (numericOut stT1 (dropColumns DROP_COLS U1)
            ++ (nominalBlocks stT1 (dropColumns DROP_COLS U1)).flatten
            ++ ordinalNumericOut stT1 (dropColumns DROP_COLS U1)
            ++ ordinalOut stT1 (dropColumns DROP_COLS U1)) := by
  have h := output_layout T1 [] stT1 (by decide)
  exact ⟨h.1 0, (h.2 U1 (by decide)).1⟩

end Preproc
